import Mathlib

/-!
Verification of the ChemEx per-profile simulation engine against its
natural-language specification.

The development shallowly embeds the code of
`src/chemex/experiments/cest/profiles/ip_1h_eq_b.py` (the pure in-phase CEST
profile: construction, `calculate_unscaled_profile`, `filter_points`) and
`src/chemex/experiments/cpmg/reading.py` (`read_profiles`).

Modelling conventions:
  * Python floats are modelled as exact rationals `ℚ`; decimal literals in the
    source (`0.1`, `0.5`, `1.0`, `2.0`) become the corresponding rationals, and
    the numpy constant `np.pi` becomes the exact rational value of the IEEE-754
    double approximating π.
  * numpy complex values are modelled by `CQ`, a complex-number structure with
    rational components.
  * Calls into scipy/numpy linear algebra (`linalg.eig`, `linalg.inv`,
    `linalg.expm`, `np.exp` on complex scalars) are external library
    facilities, not code of this repository; the engine is parameterized over
    them (`eig`, `inv`, `cexp`, `expm`).  A second variant of the engine models
    these calls as fallible (`Except`), mirroring Python exception propagation
    through the un-guarded loop body.
  * The exchange-model bases (`chemex.bases.*.ixyz_eq`), the `CESTProfile` /
    `base_profile` superclass machinery and `chemex.experiments.cpmg.util` are
    repository code that is not under `src/`; their interfaces are modelled
    from the spec (see the doc comments starting `Modelled from the spec:`)
    and the source file's uses of them.
-/

namespace ChemEx

/-- kwargs dictionaries of named rational parameter values
(`calculate_unscaled_profile(**kwargs)`); `none` models a missing key. -/
def Params : Type := String → Option ℚ

/-- `kwargs.get(key, 0.0)` (line 85 of `ip_1h_eq_b.py`). -/
def Params.get (kw : Params) (key : String) : ℚ := (kw key).getD 0

/-- A single lmfit parameter as the source uses it: a value and an optional
constraint expression (`param.expr`), here the name of another parameter. -/
structure ParamDef where
  value : ℚ
  expr : Option String
deriving DecidableEq

/-- Complex numbers with rational components, modelling numpy complex values
(eigenvalues/eigenvectors of real Liouvillians may be complex). -/
@[ext]
structure CQ where
  re : ℚ
  im : ℚ
deriving DecidableEq

namespace CQ

instance : Zero CQ := ⟨⟨0, 0⟩⟩
instance : One CQ := ⟨⟨1, 0⟩⟩
instance : Add CQ := ⟨fun z w => ⟨z.re + w.re, z.im + w.im⟩⟩
instance : Neg CQ := ⟨fun z => ⟨-z.re, -z.im⟩⟩
instance : Mul CQ := ⟨fun z w => ⟨z.re * w.re - z.im * w.im, z.re * w.im + z.im * w.re⟩⟩
instance : SMul ℚ CQ := ⟨fun q z => ⟨q * z.re, q * z.im⟩⟩

@[simp] theorem zero_re : (0 : CQ).re = 0 := rfl
@[simp] theorem zero_im : (0 : CQ).im = 0 := rfl
@[simp] theorem one_re : (1 : CQ).re = 1 := rfl
@[simp] theorem one_im : (1 : CQ).im = 0 := rfl
@[simp] theorem add_re (z w : CQ) : (z + w).re = z.re + w.re := rfl
@[simp] theorem add_im (z w : CQ) : (z + w).im = z.im + w.im := rfl
@[simp] theorem neg_re (z : CQ) : (-z).re = -z.re := rfl
@[simp] theorem neg_im (z : CQ) : (-z).im = -z.im := rfl
@[simp] theorem mul_re (z w : CQ) : (z * w).re = z.re * w.re - z.im * w.im := rfl
@[simp] theorem mul_im (z w : CQ) : (z * w).im = z.re * w.im + z.im * w.re := rfl
@[simp] theorem smul_re (q : ℚ) (z : CQ) : (q • z).re = q * z.re := rfl
@[simp] theorem smul_im (q : ℚ) (z : CQ) : (q • z).im = q * z.im := rfl

instance : CommRing CQ where
  nsmul n z := ⟨n * z.re, n * z.im⟩
  nsmul_zero z := by ext <;> simp
  nsmul_succ n z := by ext <;> simp <;> ring
  zsmul n z := ⟨n * z.re, n * z.im⟩
  zsmul_zero' z := by ext <;> simp
  zsmul_succ' n z := by ext <;> simp <;> ring
  zsmul_neg' n z := by ext <;> simp <;> ring
  add_assoc a b c := by ext <;> simp <;> ring
  zero_add a := by ext <;> simp
  add_zero a := by ext <;> simp
  add_comm a b := by ext <;> simp <;> ring
  left_distrib a b c := by ext <;> simp <;> ring
  right_distrib a b c := by ext <;> simp <;> ring
  zero_mul a := by ext <;> simp
  mul_zero a := by ext <;> simp
  mul_assoc a b c := by ext <;> simp <;> ring
  one_mul a := by ext <;> simp
  mul_one a := by ext <;> simp
  mul_comm a b := by ext <;> simp <;> ring
  neg_add_cancel a := by ext <;> simp

instance : Module ℚ CQ where
  one_smul z := by ext <;> simp
  mul_smul a b z := by ext <;> simp <;> ring
  smul_zero a := by ext <;> simp
  smul_add a z w := by ext <;> simp <;> ring
  add_smul a b z := by ext <;> simp <;> ring
  zero_smul z := by ext <;> simp

end CQ

/-- Square/rectangular complex matrices, modelling the numpy 2-D arrays the
engine manipulates. -/
abbrev MatC (m k : ℕ) : Type := Matrix (Fin m) (Fin k) CQ

/-- The exact rational value of the IEEE-754 double `np.pi`
(numpy's π constant, used at lines 97 and 134 of `ip_1h_eq_b.py`). -/
def npPi : ℚ := 884279719003555 / 281474976710656

/-- `M[np.ix_(rows, cols)]`: the numpy cross-index submatrix whose `(i, j)`
entry is `M[rows[i], cols[j]]`. -/
def subIx {n : ℕ} (rows cols : List (Fin n)) (M : MatC n n) :
    Matrix (Fin rows.length) (Fin cols.length) CQ :=
  fun i j => M (rows.get i) (cols.get j)

/-- `np.average(ms, weights=ws, axis=0)`: the weighted mean
`(Σ wᵢ • Mᵢ) / (Σ wᵢ)` of a list of matrices (line 121). -/
def npAverage {m k : ℕ} (ms : List (Matrix (Fin m) (Fin k) CQ)) (ws : List ℚ) :
    Matrix (Fin m) (Fin k) CQ :=
  (1 / ws.sum) • (List.zipWith (fun w M => w • M) ws ms).sum

/-- `np.mean` of a list of scalars (line 35 of `reading.py`). -/
def npMean (l : List ℚ) : ℚ := l.sum / l.length

/-- numpy boolean-mask indexing `xs[mask]`: keep the entries whose mask
bit is `true` (used at lines 138-141). -/
def boolMask {α : Type} : List Bool → List α → List α
  | true :: bs, x :: xs => x :: boolMask bs xs
  | false :: bs, _ :: xs => boolMask bs xs
  | _, _ => []

/-- The B1 field-inhomogeneity attribute `self.b1_inh`: a float that is
either the sentinel `np.inf` (disabling averaging, line 108) or a finite
width. -/
inductive B1Inh : Type
  | inf : B1Inh
  | finite : ℚ → B1Inh
deriving DecidableEq

/-- The three exchange-topology families of `chemex.bases`. -/
inductive BasisKind : Type
  | twoState : BasisKind
  | threeState : BasisKind
  | fourState : BasisKind
deriving DecidableEq

/-- Python's substring containment `pat in s` on strings. -/
def containsSubstr (s pat : String) : Bool := decide (pat.toList <:+: s.toList)

/-- The import selection of lines 34-39: `'3st' in self.model` picks the
three-state basis, `elif '4st' in self.model` the four-state one, `else`
the two-state one. -/
def selectBasisKind (model : String) : BasisKind :=
  if containsSubstr model "3st" then .threeState
  else if containsSubstr model "4st" then .fourState
  else .twoState

/-- Argument record for `base.compute_liouvillian`; each keyword argument
defaults to zero when not passed (the source calls it once with only
`omega1x_i` (line 44) and once with the four offsets plus `**kwargs`
(lines 99-104)). -/
structure CLArgs where
  omega1x_i : ℚ := 0
  omega_i_a : ℚ := 0
  omega_i_b : ℚ := 0
  omega_i_c : ℚ := 0
  omega_i_d : ℚ := 0
  kwargs : Params := fun _ => none

/-- Argument record for `base.create_default_params` (lines 46-52). -/
structure CDPArgs where
  model : String
  nuclei : String
  temperature : ℚ
  h_larmor_frq : ℚ
  p_total : Option ℚ
  l_total : Option ℚ

/-- Bundling the `create_default_params` call arguments of lines 46-52. -/
def cdpOf (model nuclei : String) (temperature h_larmor_frq : ℚ)
    (p_total l_total : Option ℚ) : CDPArgs :=
  ⟨model, nuclei, temperature, h_larmor_frq, p_total, l_total⟩

/-- Modelled from the spec: the interface of the `ixyz_eq` state-space
modules (`chemex.bases.two_state/three_state/four_state.ixyz_eq`), which are
repository code not under `src/`.  Per spec §4.1 a basis supplies the
Liouvillian builder, an equilibration sub-calculation, the named index
groups for the post-equilibration initial rows (`index_iz_eq`) and the final
observable rows (`index_iz_b`), and the default-parameter factory returning
the name mapping `map_names` together with the default parameter table. -/
structure Basis (n : ℕ) where
  compute_liouvillian : CLArgs → MatC n n
  compute_equilibrium_after_d1 : ℚ → Params → (Fin n → CQ)
  index_iz_eq : List (Fin n)
  index_iz_b : List (Fin n)
  create_default_params : CDPArgs → (String → Option String) × (String → ParamDef)

/-- The per-profile state of `Profile` (`ip_1h_eq_b.py`), combining the
attributes set by `Profile.__init__` (lines 28-57) with those inherited from
`CESTProfile`/`BaseProfile` that the shown methods read or mutate
(`carrier`, `ppm_i`, `time_t1`, `b1_offsets`, `omega1s`, `b1_inh`,
`b1_weights`, `on_resonance_filter`, and the measurement arrays `val`,
`err`, `reference`). -/
@[ext]
structure Profile (n : ℕ) where
  model : String
  time_d1 : ℚ
  equilibrium : Bool
  base : Basis n
  carrier : ℚ
  ppm_i : ℚ
  time_t1 : ℚ
  b1_offsets : List ℚ
  omega1s : List ℚ
  b1_inh : B1Inh
  b1_weights : List ℚ
  on_resonance_filter : ℚ
  liouvillians_b1 : List (MatC n n)
  map_names : String → Option String
  default_params : String → ParamDef
  val : List ℚ
  err : List ℚ
  reference : List Bool

/-- Lines 54-57 of `Profile.__init__`: for each of `r2_i_b`, `r2_i_c`,
`r2_i_d` present in `map_names`, overwrite the `expr` of the corresponding
default parameter with the internal name of `r2_i_a` (the Python `KeyError`
on a missing `r2_i_a` is modelled by an `Option`-valued `expr`). -/
def tieStep (mn : String → Option String) (acc : String → ParamDef)
    (name : String) : String → ParamDef :=
  match mn name with
  | some handle => Function.update acc handle { acc handle with expr := mn "r2_i_a" }
  | none => acc

/-- The full tying loop of lines 54-57. -/
def tieR2Loop (mn : String → Option String) (dp : String → ParamDef) :
    String → ParamDef :=
  List.foldl (tieStep mn) dp ["r2_i_b", "r2_i_c", "r2_i_d"]

/-- `Profile.__init__` (lines 28-57).  The metadata extraction done by
`base_profile.check_par` and the superclass constructor is outside `src/`;
its results (all the scalar/array attributes) are taken as arguments.  The
basis family is supplied as one basis per `BasisKind` (with its own
dimension), mirroring the conditional import of lines 34-41. -/
def mkProfile (dim : BasisKind → ℕ) (bases : (k : BasisKind) → Basis (dim k))
    (model nuclei : String) (temperature h_larmor_frq : ℚ)
    (p_total l_total : Option ℚ) (time_d1 : ℚ) (equilibrium : Bool)
    (carrier ppm_i time_t1 : ℚ) (b1_offsets omega1s : List ℚ)
    (b1_inh : B1Inh) (b1_weights : List ℚ) (on_resonance_filter : ℚ)
    (val err : List ℚ) (reference : List Bool) :
    Profile (dim (selectBasisKind model)) :=
  let base := bases (selectBasisKind model)
  let lb1 := omega1s.map (fun omega1 => base.compute_liouvillian { omega1x_i := omega1 })
  let cdp := base.create_default_params
    { model := model, nuclei := nuclei, temperature := temperature,
      h_larmor_frq := h_larmor_frq, p_total := p_total, l_total := l_total }
  { model := model, time_d1 := time_d1, equilibrium := equilibrium,
    base := base, carrier := carrier, ppm_i := ppm_i, time_t1 := time_t1,
    b1_offsets := b1_offsets, omega1s := omega1s, b1_inh := b1_inh,
    b1_weights := b1_weights, on_resonance_filter := on_resonance_filter,
    liouvillians_b1 := lb1, map_names := cdp.1,
    default_params := tieR2Loop cdp.1 cdp.2,
    val := val, err := err, reference := reference }

/-- Line 112: the eigenmode filter of the ideal regime -- the indices of the
eigenvalues whose imaginary part has absolute value below the fixed
tolerance `0.1` rad/s. -/
def modesBelowTol {n : ℕ} (s : Fin n → CQ) : List (Fin n) :=
  (List.finRange n).filter (fun i => decide (|(s i).im| < 1 / 10))

namespace Profile

variable {n : ℕ}

/-- Lines 85-86 and 97-104: the chemical shifts are read from `kwargs` with
default `0.0`, converted from ppm to angular offsets relative to the
carrier, shifted by `2 π b1_offset`, and handed with `**kwargs` to the
basis's Liouvillian builder, giving the B1-independent Liouvillian component
`louvillian_nob1` (source spelling) of one condition. -/
def louvillian_nob1 (p : Profile n) (kwargs : Params) (b1_offset : ℚ) : MatC n n :=
  let omega_i_a := (kwargs.get "cs_i_a" - p.carrier) * p.ppm_i - 2 * npPi * b1_offset
  let omega_i_b := (kwargs.get "cs_i_b" - p.carrier) * p.ppm_i - 2 * npPi * b1_offset
  let omega_i_c := (kwargs.get "cs_i_c" - p.carrier) * p.ppm_i - 2 * npPi * b1_offset
  let omega_i_d := (kwargs.get "cs_i_d" - p.carrier) * p.ppm_i - 2 * npPi * b1_offset
  p.base.compute_liouvillian
    { omega_i_a := omega_i_a, omega_i_b := omega_i_b, omega_i_c := omega_i_c,
      omega_i_d := omega_i_d, kwargs := kwargs }

/-- Line 106: `liouvillians = self.liouvillians_b1 + louvillian_nob1`
(numpy broadcast addition over the list of per-field-scale components). -/
def liouvilliansFor (p : Profile n) (kwargs : Params) (b1_offset : ℚ) :
    List (MatC n n) :=
  p.liouvillians_b1.map (fun Lb1 => Lb1 + p.louvillian_nob1 kwargs b1_offset)

/-- Lines 108-121: the per-condition propagator restricted to the
observable/initial index subspaces.  `eig`, `inv`, `cexp` and `expm` stand
for `scipy.linalg.eig`, `scipy.linalg.inv`, complex `np.exp` and
`scipy.linalg.expm`.  `liouvillians[0]` is modelled with `headD 0`. -/
def propagatorFor (eig : MatC n n → (Fin n → CQ) × MatC n n)
    (inv : MatC n n → MatC n n) (cexp : CQ → CQ) (expm : MatC n n → MatC n n)
    (p : Profile n) (kwargs : Params) (b1_offset : ℚ) :
    Matrix (Fin p.base.index_iz_b.length) (Fin p.base.index_iz_eq.length) CQ :=
  match p.b1_inh with
  | .inf =>
      let sv := eig ((p.liouvilliansFor kwargs b1_offset).headD 0)
      let vri := inv sv.2
      let sl := modesBelowTol sv.1
      subIx p.base.index_iz_b sl sv.2
        * Matrix.diagonal (fun j => cexp (p.time_t1 • sv.1 (sl.get j)))
        * subIx sl p.base.index_iz_eq vri
  | .finite _ =>
      let propagators := (p.liouvilliansFor kwargs b1_offset).map
        (fun liouvillian => expm (p.time_t1 • liouvillian))
      subIx p.base.index_iz_b p.base.index_iz_eq (npAverage propagators p.b1_weights)

/-- Lines 85-127, `Profile.calculate_unscaled_profile`: one entry per
`b1_offset`, in order; each entry is the real part of the per-condition
propagator applied to the `index_iz_eq` slice of the equilibrated initial
magnetization `mag0` (for this profile family the observable index group
`index_iz_b` has a single row, so each entry is a single intensity, the
source's `np.float64(magz_b)`). -/
def calculate_unscaled_profile (eig : MatC n n → (Fin n → CQ) × MatC n n)
    (inv : MatC n n → MatC n n) (cexp : CQ → CQ) (expm : MatC n n → MatC n n)
    (p : Profile n) (kwargs : Params) :
    List (Fin p.base.index_iz_b.length → ℚ) :=
  let mag0 := p.base.compute_equilibrium_after_d1 p.time_d1 kwargs
  p.b1_offsets.map (fun b1_offset => fun e =>
    (((p.propagatorFor eig inv cexp expm kwargs b1_offset).mulVec
      (fun j => mag0 (p.base.index_iz_eq.get j))) e).re)

/-- Lines 130-141, `Profile.filter_points`: compute the Hz separations
between the minor-state resonance offset and each irradiation offset, build
the keep-mask `|separation| > on_resonance_filter * 0.5`, and apply it to
the four measurement arrays (the Python `KeyError` on a missing
`cs_i_b` mapping is modelled by an empty-string fallback key). -/
def filter_points (p : Profile n) (params : String → ParamDef) : Profile n :=
  let cs := (params ((p.map_names "cs_i_b").getD "")).value
  let mask := p.b1_offsets.map (fun o =>
    decide (|(cs - p.carrier) * p.ppm_i / (2 * npPi) - o| > p.on_resonance_filter * (1 / 2)))
  { p with b1_offsets := boolMask mask p.b1_offsets,
           val := boolMask mask p.val,
           err := boolMask mask p.err,
           reference := boolMask mask p.reference }

/-- The loop body of `calculate_unscaled_profile` for one condition, with
the scipy/numpy linear-algebra calls modelled as fallible (`Except`),
mirroring Python exception semantics: the body contains no handler, so a
raise from `eig`, `inv` or `expm` aborts the body. -/
def stepE (eigE : MatC n n → Except String ((Fin n → CQ) × MatC n n))
    (invE : MatC n n → Except String (MatC n n)) (cexp : CQ → CQ)
    (expmE : MatC n n → Except String (MatC n n))
    (p : Profile n) (kwargs : Params) (mag0 : Fin n → CQ) (b1_offset : ℚ) :
    Except String (Fin p.base.index_iz_b.length → ℚ) := do
  let propagator ←
    match p.b1_inh with
    | .inf => do
        let sv ← eigE ((p.liouvilliansFor kwargs b1_offset).headD 0)
        let vri ← invE sv.2
        let sl := modesBelowTol sv.1
        pure (subIx p.base.index_iz_b sl sv.2
          * Matrix.diagonal (fun j => cexp (p.time_t1 • sv.1 (sl.get j)))
          * subIx sl p.base.index_iz_eq vri)
    | .finite _ => do
        let propagators ← (p.liouvilliansFor kwargs b1_offset).mapM
          (fun liouvillian => expmE (p.time_t1 • liouvillian))
        pure (subIx p.base.index_iz_b p.base.index_iz_eq
          (npAverage propagators p.b1_weights))
  pure (fun e =>
    ((propagator.mulVec (fun j => mag0 (p.base.index_iz_eq.get j))) e).re)

end Profile

/-- The `for` loop of lines 96-125 with a fallible body: conditions are
processed in order and the first raised error aborts the whole call. -/
def loopE {V : Type} (step : ℚ → Except String V) : List ℚ → Except String (List V)
  | [] => pure []
  | o :: os => do
      let v ← step o
      let vs ← loopE step os
      pure (v :: vs)

/-- `calculate_unscaled_profile` with fallible linear algebra: the whole
call returns the first error raised by any per-condition step, and a list
of intensities only when every step succeeds. -/
def Profile.calculate_unscaled_profileE {n : ℕ}
    (eigE : MatC n n → Except String ((Fin n → CQ) × MatC n n))
    (invE : MatC n n → Except String (MatC n n)) (cexp : CQ → CQ)
    (expmE : MatC n n → Except String (MatC n n))
    (p : Profile n) (kwargs : Params) :
    Except String (List (Fin p.base.index_iz_b.length → ℚ)) :=
  loopE
    (p.stepE eigE invE cexp expmE kwargs
      (p.base.compute_equilibrium_after_d1 p.time_d1 kwargs))
    p.b1_offsets

/-- Modelled from the spec: the CPMG profile container built by the
per-experiment `Profile` class that `read_profiles` instantiates at line 29
of `reading.py` (that class is repository code not under `src/`).  Per spec
§6, ingestion supplies parallel arrays loaded from a three-column file:
condition values (`ncycs`), intensities (`val`) and intensity
uncertainties (`err`). -/
structure CPMGProfile where
  name : String
  ncycs : List ℚ
  val : List ℚ
  err : List ℚ
deriving DecidableEq

/-- Modelled from the spec: constructing one profile from its measurement
rows (`np.loadtxt` with the dtype of line 20 of `reading.py` yields rows
`(ncycs, intensities, intensities_err)`). -/
def mkCPMGProfile (name : String) (measurements : List (ℚ × ℚ × ℚ)) : CPMGProfile :=
  { name := name,
    ncycs := measurements.map (fun r => r.1),
    val := measurements.map (fun r => r.2.1),
    err := measurements.map (fun r => r.2.2) }

/-- Python truthiness of the optional residue include/exclude lists of
`read_profiles` (`None` and the empty list are falsy). -/
def pyTruthy : Option (List String) → Bool
  | none => false
  | some l => !l.isEmpty

/-- Line 25 of `reading.py`: a profile is skipped when
`(res_incl and profile_name not in res_incl) or
(res_excl and profile_name in res_excl)`. -/
def keepName (res_incl res_excl : Option (List String)) (name : String) : Bool :=
  !((pyTruthy res_incl && !(decide (name ∈ res_incl.getD []))) ||
    (pyTruthy res_excl && decide (name ∈ res_excl.getD [])))

/-- Lines 11-42 of `reading.py`, `read_profiles`.  The dynamic module import
and `name_experiment` do not affect the returned data and are omitted;
`estimate_noise` (`chemex.experiments.cpmg.util`, not under `src/`) and
`np.loadtxt` are taken as parameters.  The metadata lookup
`experiment_details.get('error', 'file')` is modelled by an optional
`errorEntry`. -/
def read_profiles (estimate_noise : CPMGProfile → ℚ)
    (loadtxt : String → List (ℚ × ℚ × ℚ))
    (profile_filenames : List (String × String))
    (errorEntry : Option String)
    (res_incl res_excl : Option (List String)) : List CPMGProfile × ℕ :=
  let profiles := (profile_filenames.filter (fun nf => keepName res_incl res_excl nf.1)).map
    (fun nf => mkCPMGProfile nf.1 (loadtxt nf.2))
  let error := errorEntry.getD "file"
  let profiles2 :=
    if error = "auto" then
      let error_value := npMean (profiles.map estimate_noise)
      profiles.map (fun pr => { pr with err := List.replicate pr.err.length error_value })
    else profiles
  (profiles2, (profiles2.map (fun pr => pr.val.length)).sum)

/-- The spec's §4.2 ideal (infinite-B1) regime, as claim C1 words it:
eigendecompose the given nominal Liouvillian, keep exactly the eigenmodes
whose imaginary part has absolute value below the 0.1 rad/s tolerance, and
reconstruct the propagator restricted to the observable rows `endIdx` and
initial columns `startIdx` from the filtered eigenvectors, the
exponentiated eigenvalues over `t1`, and the inverse eigenvector matrix. -/
def idealPropagator {n : ℕ} (eig : MatC n n → (Fin n → CQ) × MatC n n)
    (inv : MatC n n → MatC n n) (cexp : CQ → CQ) (t1 : ℚ)
    (endIdx startIdx : List (Fin n)) (L : MatC n n) :
    Matrix (Fin endIdx.length) (Fin startIdx.length) CQ :=
  let s := (eig L).1
  let vr := (eig L).2
  let sl := modesBelowTol s
  subIx endIdx sl vr * Matrix.diagonal (fun j => cexp (t1 • s (sl.get j)))
    * subIx sl startIdx (inv vr)

/-- The spec's §4.2 finite-field regime: the full matrix exponential of
every per-field-scale Liouvillian over `t1`, weight-averaged with the
inhomogeneity weights and restricted to the observable/initial subspaces. -/
def avgPropagator {n : ℕ} (expm : MatC n n → MatC n n) (t1 : ℚ)
    (endIdx startIdx : List (Fin n)) (Ls : List (MatC n n)) (ws : List ℚ) :
    Matrix (Fin endIdx.length) (Fin startIdx.length) CQ :=
  subIx endIdx startIdx (npAverage (Ls.map (fun L => expm (t1 • L))) ws)

/-- C1: for every evaluation of `calculate_unscaled_profile` and every
condition, the ideal eigenmode-filtering regime is used exactly when
`b1_inh` is the infinite sentinel: under the sentinel the per-condition
propagator is the `idealPropagator` built from the nominal (first)
Liouvillian of the condition by keeping exactly the eigenmodes whose
imaginary part is below 0.1 rad/s in absolute value (the `modesBelowTol`
characterization), and under a finite value it is the weight-averaged
matrix-exponential propagator instead. -/
theorem claim1 {n : ℕ} (eig : MatC n n → (Fin n → CQ) × MatC n n)
    (inv : MatC n n → MatC n n) (cexp : CQ → CQ) (expm : MatC n n → MatC n n)
    (p : Profile n) (kwargs : Params) (b1_offset : ℚ)
    (hne : p.liouvillians_b1 ≠ []) :
    (p.b1_inh = .inf →
      p.propagatorFor eig inv cexp expm kwargs b1_offset =
        idealPropagator eig inv cexp p.time_t1 p.base.index_iz_b p.base.index_iz_eq
          ((p.liouvilliansFor kwargs b1_offset).headD 0)) ∧
    (∀ (s : Fin n → CQ) (i : Fin n), i ∈ modesBelowTol s ↔ |(s i).im| < 1 / 10) ∧
    (p.b1_inh ≠ .inf →
      p.propagatorFor eig inv cexp expm kwargs b1_offset =
        avgPropagator expm p.time_t1 p.base.index_iz_b p.base.index_iz_eq
          (p.liouvilliansFor kwargs b1_offset) p.b1_weights) := by
  refine ⟨fun hinf => ?_, fun s i => ?_, fun hfin => ?_⟩
  · simp only [Profile.propagatorFor, hinf, idealPropagator]
  · simp [modesBelowTol, List.mem_filter, List.mem_finRange]
  · cases hb : p.b1_inh with
    | inf => exact absurd hb hfin
    | finite w => simp only [Profile.propagatorFor, hb, avgPropagator]

/-- Witness for C1 at a concrete one-dimensional profile whose `b1_inh` is
the infinite sentinel. -/
def oneBasis : Basis 1 :=
  { compute_liouvillian := fun _ => 0,
    compute_equilibrium_after_d1 := fun _ _ => fun _ => 1,
    index_iz_eq := [0],
    index_iz_b := [0],
    create_default_params := fun _ =>
      (fun nm => if nm = "cs_i_b" then some "csb" else none,
       fun _ => { value := 0, expr := none }) }

def c1Profile : Profile 1 :=
  { model := "2st", time_d1 := 1, equilibrium := false, base := oneBasis,
    carrier := 0, ppm_i := 1, time_t1 := 1, b1_offsets := [0],
    omega1s := [1], b1_inh := .inf, b1_weights := [1],
    on_resonance_filter := 0, liouvillians_b1 := [1],
    map_names := fun _ => none,
    default_params := fun _ => { value := 0, expr := none },
    val := [1], err := [1], reference := [false] }

theorem claim1_witness :
    c1Profile.propagatorFor (fun M => (fun _ => 0, M)) id id id (fun _ => none) 0 =
      idealPropagator (fun M => (fun _ => 0, M)) id id c1Profile.time_t1
        c1Profile.base.index_iz_b c1Profile.base.index_iz_eq
        ((c1Profile.liouvilliansFor (fun _ => none) 0).headD 0) :=
  (claim1 (fun M => (fun _ => 0, M)) id id id c1Profile (fun _ => none) 0
    (by simp [c1Profile])).1 rfl

/-- C2: `calculate_unscaled_profile` returns exactly one entry per supplied
condition, in the order of `b1_offsets`, and the entry for each condition is
the real part of that condition's propagator applied to the `index_iz_eq`
slice of the equilibrated initial magnetization `mag0`. -/
theorem claim2 {n : ℕ} (eig : MatC n n → (Fin n → CQ) × MatC n n)
    (inv : MatC n n → MatC n n) (cexp : CQ → CQ) (expm : MatC n n → MatC n n)
    (p : Profile n) (kwargs : Params) :
    (p.calculate_unscaled_profile eig inv cexp expm kwargs).length =
      p.b1_offsets.length ∧
    ∀ i : ℕ,
      (p.calculate_unscaled_profile eig inv cexp expm kwargs)[i]? =
        (p.b1_offsets[i]?).map (fun b1_offset => fun e =>
          (((p.propagatorFor eig inv cexp expm kwargs b1_offset).mulVec
            (fun j => p.base.compute_equilibrium_after_d1 p.time_d1 kwargs
              (p.base.index_iz_eq.get j))) e).re) := by
  constructor
  · simp [Profile.calculate_unscaled_profile]
  · intro i
    simp [Profile.calculate_unscaled_profile, List.getElem?_map]

/-- A concrete basis whose default-parameter factory exposes `r2_i_a` and
`r2_i_c`, used to instantiate C9. -/
def c9Basis : Basis 1 :=
  { compute_liouvillian := fun _ => 0,
    compute_equilibrium_after_d1 := fun _ _ => fun _ => 1,
    index_iz_eq := [0],
    index_iz_b := [0],
    create_default_params := fun _ =>
      (fun nm => if nm = "r2_i_a" then some "h_a"
                 else if nm = "r2_i_c" then some "h_c" else none,
       fun _ => { value := 0, expr := none }) }

/-- Once a handle's default parameter has its `expr` tied to `r2_i_a`,
every further iteration of the tying loop preserves that. -/
lemma tieStep_foldl_preserve (mn : String → Option String) (names : List String)
    (dp : String → ParamDef) (h : String)
    (hh : (dp h).expr = mn "r2_i_a") :
    ((names.foldl (tieStep mn) dp) h).expr = mn "r2_i_a" := by
  induction names generalizing dp with
  | nil => exact hh
  | cons nm tl ih =>
      simp only [List.foldl_cons]
      apply ih
      cases hmn : mn nm with
      | none => simpa [tieStep, hmn] using hh
      | some hd =>
          by_cases hEq : hd = h
          · subst hEq
            simp [tieStep, hmn, Function.update_same]
          · simpa [tieStep, hmn, Function.update_noteq (Ne.symm hEq)] using hh

/-- Any name processed by the tying loop ends with its handle's `expr` tied
to `r2_i_a`. -/
lemma tieStep_foldl_mem (mn : String → Option String) (names : List String)
    (dp : String → ParamDef) (name handle : String)
    (hmem : name ∈ names) (h1 : mn name = some handle) :
    ((names.foldl (tieStep mn) dp) handle).expr = mn "r2_i_a" := by
  induction names generalizing dp with
  | nil => cases hmem
  | cons nm tl ih =>
      rcases List.mem_cons.mp hmem with heq | htl
      · subst heq
        simp only [List.foldl_cons]
        apply tieStep_foldl_preserve
        simp [tieStep, h1, Function.update_same]
      · simp only [List.foldl_cons]
        exact ih _ htl

/-- C8: profile construction selects the three-state basis when the model
string contains `"3st"`, otherwise the four-state basis when it contains
`"4st"`, otherwise the two-state basis; the selected basis is stored at
construction and supplies the Liouvillian builder (resulting in the
precomputed `liouvillians_b1`), the default parameters (`map_names` and,
after the tying loop, `default_params`), and -- being the stored `base` --
the index groups that `calculate_unscaled_profile` reads through it. -/
theorem claim8 (dim : BasisKind → ℕ) (bases : (k : BasisKind) → Basis (dim k))
    (model nuclei : String) (temperature h_larmor_frq : ℚ)
    (p_total l_total : Option ℚ) (time_d1 : ℚ) (equilibrium : Bool)
    (carrier ppm_i time_t1 : ℚ) (b1_offsets omega1s : List ℚ)
    (b1_inh : B1Inh) (b1_weights : List ℚ) (on_resonance_filter : ℚ)
    (val err : List ℚ) (reference : List Bool) :
    (containsSubstr model "3st" = true → selectBasisKind model = .threeState) ∧
    (containsSubstr model "3st" = false → containsSubstr model "4st" = true →
      selectBasisKind model = .fourState) ∧
    (containsSubstr model "3st" = false → containsSubstr model "4st" = false →
      selectBasisKind model = .twoState) ∧
    (mkProfile dim bases model nuclei temperature h_larmor_frq p_total l_total
        time_d1 equilibrium carrier ppm_i time_t1 b1_offsets omega1s b1_inh
        b1_weights on_resonance_filter val err reference).base = bases (selectBasisKind model) ∧
    (mkProfile dim bases model nuclei temperature h_larmor_frq p_total l_total
        time_d1 equilibrium carrier ppm_i time_t1 b1_offsets omega1s b1_inh
        b1_weights on_resonance_filter val err reference).liouvillians_b1 =
      omega1s.map (fun omega1 =>
        (bases (selectBasisKind model)).compute_liouvillian { omega1x_i := omega1 }) ∧
    (mkProfile dim bases model nuclei temperature h_larmor_frq p_total l_total
        time_d1 equilibrium carrier ppm_i time_t1 b1_offsets omega1s b1_inh
        b1_weights on_resonance_filter val err reference).map_names =
      ((bases (selectBasisKind model)).create_default_params (cdpOf model nuclei temperature h_larmor_frq p_total l_total)).1 ∧
    (mkProfile dim bases model nuclei temperature h_larmor_frq p_total l_total
        time_d1 equilibrium carrier ppm_i time_t1 b1_offsets omega1s b1_inh
        b1_weights on_resonance_filter val err reference).default_params =
      tieR2Loop ((bases (selectBasisKind model)).create_default_params (cdpOf model nuclei temperature h_larmor_frq p_total l_total)).1
        ((bases (selectBasisKind model)).create_default_params (cdpOf model nuclei temperature h_larmor_frq p_total l_total)).2 := by
  refine ⟨fun h3 => ?_, fun h3 h4 => ?_, fun h3 h4 => ?_, rfl, rfl, rfl, rfl⟩
  · simp [selectBasisKind, h3]
  · simp [selectBasisKind, h3, h4]
  · simp [selectBasisKind, h3, h4]

theorem claim8_witness :
    selectBasisKind "a_3st" = .threeState ∧
    selectBasisKind "a_4st" = .fourState ∧
    selectBasisKind "a_2st" = .twoState :=
  ⟨(claim8 (fun _ => 1) (fun _ => oneBasis) "a_3st" "" 0 0 none none 0 false 0 0 0
      [] [] .inf [] 0 [] [] []).1 (by decide),
   (claim8 (fun _ => 1) (fun _ => oneBasis) "a_4st" "" 0 0 none none 0 false 0 0 0
      [] [] .inf [] 0 [] [] []).2.1 (by decide) (by decide),
   (claim8 (fun _ => 1) (fun _ => oneBasis) "a_2st" "" 0 0 none none 0 false 0 0 0
      [] [] .inf [] 0 [] [] []).2.2.1 (by decide) (by decide)⟩

/-- C9: after construction, whenever the transverse-relaxation parameter of
state C or D appears in the parameter-name mapping, its default parameter's
constraint expression is the internal name of state A's transverse
relaxation rate. -/
theorem claim9 (dim : BasisKind → ℕ) (bases : (k : BasisKind) → Basis (dim k))
    (model nuclei : String) (temperature h_larmor_frq : ℚ)
    (p_total l_total : Option ℚ) (time_d1 : ℚ) (equilibrium : Bool)
    (carrier ppm_i time_t1 : ℚ) (b1_offsets omega1s : List ℚ)
    (b1_inh : B1Inh) (b1_weights : List ℚ) (on_resonance_filter : ℚ)
    (val err : List ℚ) (reference : List Bool)
    (name handle handleA : String)
    (hname : name = "r2_i_c" ∨ name = "r2_i_d")
    (hmap : (mkProfile dim bases model nuclei temperature h_larmor_frq p_total l_total
        time_d1 equilibrium carrier ppm_i time_t1 b1_offsets omega1s b1_inh
        b1_weights on_resonance_filter val err reference).map_names name = some handle)
    (hA : (mkProfile dim bases model nuclei temperature h_larmor_frq p_total l_total
        time_d1 equilibrium carrier ppm_i time_t1 b1_offsets omega1s b1_inh
        b1_weights on_resonance_filter val err reference).map_names "r2_i_a" = some handleA) :
    ((mkProfile dim bases model nuclei temperature h_larmor_frq p_total l_total
        time_d1 equilibrium carrier ppm_i time_t1 b1_offsets omega1s b1_inh
        b1_weights on_resonance_filter val err reference).default_params handle).expr = some handleA := by
  have hmem : name ∈ ["r2_i_b", "r2_i_c", "r2_i_d"] := by
    rcases hname with h | h <;> simp [h]
  have := tieStep_foldl_mem ((mkProfile dim bases model nuclei temperature h_larmor_frq p_total l_total
        time_d1 equilibrium carrier ppm_i time_t1 b1_offsets omega1s b1_inh
        b1_weights on_resonance_filter val err reference).map_names)
    ["r2_i_b", "r2_i_c", "r2_i_d"]
    (((bases (selectBasisKind model)).create_default_params (cdpOf model nuclei temperature h_larmor_frq p_total l_total)).2)
    name handle hmem hmap
  calc ((mkProfile dim bases model nuclei temperature h_larmor_frq p_total l_total
        time_d1 equilibrium carrier ppm_i time_t1 b1_offsets omega1s b1_inh
        b1_weights on_resonance_filter val err reference).default_params handle).expr
      = (mkProfile dim bases model nuclei temperature h_larmor_frq p_total l_total
        time_d1 equilibrium carrier ppm_i time_t1 b1_offsets omega1s b1_inh
        b1_weights on_resonance_filter val err reference).map_names "r2_i_a" := this
    _ = some handleA := hA

theorem claim9_witness :
    ((mkProfile (fun _ => 1) (fun _ => c9Basis) "a_3st" "" 0 0 none none 0 false
        0 0 0 [] [] .inf [] 0 [] [] []).default_params "h_c").expr = some "h_a" :=
  claim9 (fun _ => 1) (fun _ => c9Basis) "a_3st" "" 0 0 none none 0 false 0 0 0
    [] [] .inf [] 0 [] [] [] "r2_i_c" "h_c" "h_a" (Or.inl rfl) rfl rfl

/-- Masking a list with the mask computed from its own entries is exactly
`List.filter`. -/
lemma boolMask_map_self {α : Type} (pred : α → Bool) (xs : List α) :
    boolMask (xs.map pred) xs = xs.filter pred := by
  induction xs with
  | nil => rfl
  | cons x tl ih =>
      cases hp : pred x <;> simp [boolMask, hp, ih, List.filter_cons]

/-- Masking two equally long lists with the same mask keeps their lengths
equal. -/
lemma boolMask_length_eq {α β : Type} (bs : List Bool) (xs : List α)
    (ys : List β) (h : xs.length = ys.length) :
    (boolMask bs xs).length = (boolMask bs ys).length := by
  induction bs generalizing xs ys with
  | nil => simp [boolMask]
  | cons b tl ih =>
      cases xs with
      | nil => cases ys with
        | nil => cases b <;> rfl
        | cons y ytl => simp at h
      | cons x xtl => cases ys with
        | nil => simp at h
        | cons y ytl =>
            simp only [List.length_cons, Nat.succ.injEq] at h
            cases b <;> simp [boolMask, ih _ _ h]

/-- A masked list is a sublist of the original. -/
lemma boolMask_sublist {α : Type} (bs : List Bool) (xs : List α) :
    (boolMask bs xs).Sublist xs := by
  induction bs generalizing xs with
  | nil => cases xs <;> simp [boolMask]
  | cons b tl ih =>
      cases xs with
      | nil => simp [boolMask]
      | cons x xtl =>
          cases b
          · exact (ih xtl).cons x
          · exact (ih xtl).cons₂ x

/-- Masking with an all-true mask at least as long as the list is the
identity. -/
lemma boolMask_all_true {α : Type} (bs : List Bool) (xs : List α)
    (hb : ∀ b ∈ bs, b = true) (hl : xs.length ≤ bs.length) :
    boolMask bs xs = xs := by
  induction bs generalizing xs with
  | nil =>
      cases xs with
      | nil => rfl
      | cons x xtl => simp at hl
  | cons b tl ih =>
      cases xs with
      | nil => have := hb b (List.mem_cons_self b tl); subst this; rfl
      | cons x xtl =>
          have hbt := hb b (List.mem_cons_self b tl)
          subst hbt
          simp only [List.length_cons] at hl
          simp [boolMask, ih xtl (fun c hc => hb c (List.mem_cons_of_mem _ hc))
            (Nat.le_of_succ_le_succ hl)]

/-- Masking commutes with zipping equally long lists. -/
lemma boolMask_zip {α β : Type} (bs : List Bool) (xs : List α) (ys : List β)
    (h : xs.length = ys.length) :
    boolMask bs (xs.zip ys) = (boolMask bs xs).zip (boolMask bs ys) := by
  induction bs generalizing xs ys with
  | nil => cases xs <;> cases ys <;> simp [boolMask]
  | cons b tl ih =>
      cases xs with
      | nil => cases ys <;> simp [boolMask]
      | cons x xtl =>
          cases ys with
          | nil => simp at h
          | cons y ytl =>
              simp only [List.length_cons, Nat.succ.injEq] at h
              cases b <;> simpa [boolMask, List.zip_cons_cons] using ih _ _ h

/-- The keep-predicate of `filter_points` (the per-offset test behind the
source's vectorized `abs(nu_offsets) > self.on_resonance_filter * 0.5`). -/
def predOf {n : ℕ} (p : Profile n) (params : String → ParamDef) : ℚ → Bool :=
  fun o =>
    decide (|((params ((p.map_names "cs_i_b").getD "")).value - p.carrier)
        * p.ppm_i / (2 * npPi) - o| > p.on_resonance_filter * (1 / 2))

/-- The boolean keep-mask of `filter_points` (line 136). -/
def maskOf {n : ℕ} (p : Profile n) (params : String → ParamDef) : List Bool :=
  p.b1_offsets.map (predOf p params)

/-- `filter_points` applies the one keep-mask to all four arrays. -/
lemma filter_points_def {n : ℕ} (p : Profile n) (params : String → ParamDef) :
    p.filter_points params =
      { p with b1_offsets := boolMask (maskOf p params) p.b1_offsets,
               val := boolMask (maskOf p params) p.val,
               err := boolMask (maskOf p params) p.err,
               reference := boolMask (maskOf p params) p.reference } := rfl

def c3ParamSet : String → ParamDef := fun _ => { value := 0, expr := none }

/-- A profile with a single measurement point whose frequency separation
from the minor-state resonance is exactly half the 50 Hz filter width. -/
def c3Profile : Profile 1 :=
  { model := "2st", time_d1 := 1, equilibrium := false, base := oneBasis,
    carrier := 0, ppm_i := 0, time_t1 := 1, b1_offsets := [-25],
    omega1s := [1], b1_inh := .inf, b1_weights := [1],
    on_resonance_filter := 50, liouvillians_b1 := [1],
    map_names := fun nm => if nm = "cs_i_b" then some "csb" else none,
    default_params := fun _ => { value := 0, expr := none },
    val := [7], err := [1], reference := [false] }

/-- C3 counterexample: the point at separation exactly 25 Hz (half the
50 Hz threshold) is not "smaller than half the threshold", so the claim
predicts it is retained; `filter_points` nevertheless removes it, because
the code keeps only separations strictly greater than half the
threshold. -/
theorem claim3_counterexample :
    (c3Profile.filter_points c3ParamSet).b1_offsets = [] ∧
    ¬ (|((c3ParamSet ((c3Profile.map_names "cs_i_b").getD "")).value
          - c3Profile.carrier) * c3Profile.ppm_i / (2 * npPi) - (-25)|
        < c3Profile.on_resonance_filter * (1 / 2)) := by
  constructor
  · norm_num [Profile.filter_points, c3Profile, c3ParamSet, boolMask, npPi]
  · norm_num [c3Profile, c3ParamSet, npPi]

def c3ScenarioParams : String → ParamDef := fun _ => { value := 300, expr := none }

/-- The spec's test scenario: threshold 50 Hz, minor-state resonance
mapping to 300 Hz, offsets [250, 290, 310, 1000] (with `ppm_i = 2 π` so the
ppm-to-Hz mapping is the identity). -/
def c3ScenarioProfile : Profile 1 :=
  { model := "2st", time_d1 := 1, equilibrium := false, base := oneBasis,
    carrier := 0, ppm_i := 2 * npPi, time_t1 := 1,
    b1_offsets := [250, 290, 310, 1000],
    omega1s := [1], b1_inh := .inf, b1_weights := [1],
    on_resonance_filter := 50, liouvillians_b1 := [1],
    map_names := fun nm => if nm = "cs_i_b" then some "csb" else none,
    default_params := fun _ => { value := 0, expr := none },
    val := [1, 2, 3, 4], err := [1, 1, 1, 1],
    reference := [false, false, false, false] }

/-- C3 amended: `filter_points` retains exactly the points whose absolute
frequency separation from the minor-state resonance offset is strictly
greater than half the threshold (equivalently, it excludes exactly those
with separation less than or equal to half the threshold); in the spec's
scenario (threshold 50, resonance offset 300, offsets [250, 290, 310,
1000]) the points at 290 and 310 are removed and 250 and 1000 are
retained. -/
theorem claim3_amended :
    (∀ (n : ℕ) (p : Profile n) (params : String → ParamDef),
      (p.filter_points params).b1_offsets =
        p.b1_offsets.filter (fun o =>
          decide (|((params ((p.map_names "cs_i_b").getD "")).value - p.carrier)
              * p.ppm_i / (2 * npPi) - o| > p.on_resonance_filter * (1 / 2)))) ∧
    (c3ScenarioProfile.filter_points c3ScenarioParams).b1_offsets = [250, 1000] := by
  constructor
  · intro n p params
    exact boolMask_map_self _ _
  · norm_num [Profile.filter_points, c3ScenarioProfile, c3ScenarioParams, boolMask, npPi]

/-- C4: the data-selection filter is idempotent, and after any application
the four mutated arrays have equal lengths and were masked with the one
keep-mask, so that the retained quadruples form a sublist of the original
co-indexed quadruples (every retained index refers to one original
measurement across all four arrays). -/
theorem claim4 {n : ℕ} (p : Profile n) (params : String → ParamDef)
    (hv : p.val.length = p.b1_offsets.length)
    (he : p.err.length = p.b1_offsets.length)
    (hr : p.reference.length = p.b1_offsets.length) :
    (p.filter_points params).filter_points params = p.filter_points params ∧
    (p.filter_points params).val.length =
      (p.filter_points params).b1_offsets.length ∧
    (p.filter_points params).err.length =
      (p.filter_points params).b1_offsets.length ∧
    (p.filter_points params).reference.length =
      (p.filter_points params).b1_offsets.length ∧
    List.Sublist
      ((p.filter_points params).b1_offsets.zip
        ((p.filter_points params).val.zip
          ((p.filter_points params).err.zip (p.filter_points params).reference)))
      (p.b1_offsets.zip (p.val.zip (p.err.zip p.reference))) := by
  have lenV : (p.filter_points params).val.length =
      (p.filter_points params).b1_offsets.length := boolMask_length_eq _ _ _ hv
  have lenE : (p.filter_points params).err.length =
      (p.filter_points params).b1_offsets.length := boolMask_length_eq _ _ _ he
  have lenR : (p.filter_points params).reference.length =
      (p.filter_points params).b1_offsets.length := boolMask_length_eq _ _ _ hr
  have hQoffFilter : (p.filter_points params).b1_offsets =
      p.b1_offsets.filter (predOf p params) := boolMask_map_self _ _
  have hAllTrue : ∀ b ∈ (p.filter_points params).b1_offsets.map (predOf p params),
      b = true := by
    intro b hb
    rcases List.mem_map.mp hb with ⟨o, ho, rfl⟩
    rw [hQoffFilter] at ho
    exact List.of_mem_filter ho
  have hlen2 : ((p.filter_points params).b1_offsets.map (predOf p params)).length =
      (p.filter_points params).b1_offsets.length := by simp
  have hQoff : boolMask (maskOf (p.filter_points params) params)
      (p.filter_points params).b1_offsets = (p.filter_points params).b1_offsets :=
    boolMask_all_true _ _ hAllTrue (le_of_eq hlen2.symm)
  have hQval : boolMask (maskOf (p.filter_points params) params)
      (p.filter_points params).val = (p.filter_points params).val :=
    boolMask_all_true _ _ hAllTrue (le_of_eq (lenV.trans hlen2.symm))
  have hQerr : boolMask (maskOf (p.filter_points params) params)
      (p.filter_points params).err = (p.filter_points params).err :=
    boolMask_all_true _ _ hAllTrue (le_of_eq (lenE.trans hlen2.symm))
  have hQref : boolMask (maskOf (p.filter_points params) params)
      (p.filter_points params).reference = (p.filter_points params).reference :=
    boolMask_all_true _ _ hAllTrue (le_of_eq (lenR.trans hlen2.symm))
  have hIdem : (p.filter_points params).filter_points params =
      p.filter_points params := by
    rw [filter_points_def (p.filter_points params) params]
    rw [hQoff, hQval, hQerr, hQref]
  have hve : p.err.length = p.reference.length := he.trans hr.symm
  have hv2 : p.val.length = (p.err.zip p.reference).length := by
    simp [List.length_zip, he, hr, hv]
  have h12 : p.b1_offsets.length = (p.val.zip (p.err.zip p.reference)).length := by
    simp [List.length_zip, he, hr, hv]
  have hzip : (p.filter_points params).b1_offsets.zip
      ((p.filter_points params).val.zip
        ((p.filter_points params).err.zip (p.filter_points params).reference)) =
      boolMask (maskOf p params)
        (p.b1_offsets.zip (p.val.zip (p.err.zip p.reference))) := by
    show (boolMask (maskOf p params) p.b1_offsets).zip
        ((boolMask (maskOf p params) p.val).zip
          ((boolMask (maskOf p params) p.err).zip
            (boolMask (maskOf p params) p.reference))) = _
    rw [boolMask_zip _ _ _ h12, boolMask_zip _ _ _ hv2, boolMask_zip _ _ _ hve]
  refine ⟨hIdem, lenV, lenE, lenR, ?_⟩
  rw [hzip]
  exact boolMask_sublist _ _

def c4Params : String → ParamDef := fun _ => { value := 0, expr := none }

def c4Profile : Profile 1 :=
  { model := "2st", time_d1 := 1, equilibrium := false, base := oneBasis,
    carrier := 0, ppm_i := 0, time_t1 := 1, b1_offsets := [0, 100],
    omega1s := [1], b1_inh := .inf, b1_weights := [1],
    on_resonance_filter := 50, liouvillians_b1 := [1],
    map_names := fun nm => if nm = "cs_i_b" then some "csb" else none,
    default_params := fun _ => { value := 0, expr := none },
    val := [1, 2], err := [3, 4], reference := [false, true] }

theorem claim4_witness :
    (c4Profile.filter_points c4Params).filter_points c4Params =
      c4Profile.filter_points c4Params :=
  (claim4 c4Profile c4Params rfl rfl rfl).1

/-- C5: in the finite-field regime, a field-inhomogeneity distribution with
a single field-scale value (a single precomputed B1 Liouvillian component)
of weight 1 makes the averaged propagator equal to the restriction of the
direct matrix exponential of that condition's single Liouvillian times the
duration -- no averaging error. -/
theorem claim5 {n : ℕ} (eig : MatC n n → (Fin n → CQ) × MatC n n)
    (inv : MatC n n → MatC n n) (cexp : CQ → CQ) (expm : MatC n n → MatC n n)
    (p : Profile n) (kwargs : Params) (b1_offset : ℚ) (L1 : MatC n n)
    (hinh : p.b1_inh ≠ .inf) (hL : p.liouvillians_b1 = [L1])
    (hw : p.b1_weights = [1]) :
    p.propagatorFor eig inv cexp expm kwargs b1_offset =
      subIx p.base.index_iz_b p.base.index_iz_eq
        (expm (p.time_t1 • (L1 + p.louvillian_nob1 kwargs b1_offset))) := by
  cases hb : p.b1_inh with
  | inf => exact absurd hb hinh
  | finite w =>
      simp [Profile.propagatorFor, hb, Profile.liouvilliansFor, hL, hw, npAverage]

/-- A concrete finite-field profile with a single unit-weight field-scale
value. -/
def c5Profile : Profile 1 :=
  { model := "2st", time_d1 := 1, equilibrium := false, base := oneBasis,
    carrier := 0, ppm_i := 1, time_t1 := 1, b1_offsets := [0],
    omega1s := [1], b1_inh := .finite 0, b1_weights := [1],
    on_resonance_filter := 0, liouvillians_b1 := [0],
    map_names := fun _ => none,
    default_params := fun _ => { value := 0, expr := none },
    val := [1], err := [1], reference := [false] }

theorem claim5_witness :
    c5Profile.propagatorFor (fun M => (fun _ => 0, M)) (fun M => M) (fun z => z)
        (fun M => M) (fun _ => none) 0 =
      subIx c5Profile.base.index_iz_b c5Profile.base.index_iz_eq
        (c5Profile.time_t1 • ((0 : MatC 1 1) +
          c5Profile.louvillian_nob1 (fun _ => none) 0)) :=
  claim5 (fun M => (fun _ => 0, M)) (fun M => M) (fun z => z) (fun M => M)
    c5Profile (fun _ => none) 0 0 (by simp [c5Profile]) rfl rfl

/-- Scaling the weights scales the weighted sum of propagators. -/
lemma zipWith_smul_map_mul {m k : ℕ} (c : ℚ) (ws : List ℚ)
    (ms : List (Matrix (Fin m) (Fin k) CQ)) :
    (List.zipWith (fun w M => w • M) (ws.map (fun w => c * w)) ms).sum =
      c • (List.zipWith (fun w M => w • M) ws ms).sum := by
  induction ws generalizing ms with
  | nil => simp
  | cons w tl ih =>
      cases ms with
      | nil => simp
      | cons M mtl => simp [ih, smul_add, mul_smul]

/-- Scaling the weights scales their total. -/
lemma sum_map_mul_const (c : ℚ) (ws : List ℚ) :
    (ws.map (fun w => c * w)).sum = c * ws.sum := by
  induction ws with
  | nil => simp
  | cons w tl ih => simp [ih, mul_add]

/-- C6: `np.average` computes a weighted mean, not a naive weighted sum:
multiplying every weight by the same positive constant leaves both the
averaged matrix and the engine's finite-regime propagator unchanged, so
weights need not be pre-normalized. -/
theorem claim6 {m k n : ℕ} (ms : List (Matrix (Fin m) (Fin k) CQ)) (ws : List ℚ)
    (eig : MatC n n → (Fin n → CQ) × MatC n n) (inv : MatC n n → MatC n n)
    (cexp : CQ → CQ) (expm : MatC n n → MatC n n)
    (p : Profile n) (kwargs : Params) (b1_offset : ℚ) (c : ℚ)
    (hc : 0 < c) (hws : 0 < ws.sum) (hpw : 0 < p.b1_weights.sum) :
    npAverage ms (ws.map (fun w => c * w)) = npAverage ms ws ∧
    Profile.propagatorFor eig inv cexp expm
      { p with b1_weights := p.b1_weights.map (fun w => c * w) } kwargs b1_offset =
      p.propagatorFor eig inv cexp expm kwargs b1_offset := by
  have key : ∀ (m2 k2 : ℕ) (ms2 : List (Matrix (Fin m2) (Fin k2) CQ)) (ws2 : List ℚ),
      0 < ws2.sum →
      npAverage ms2 (ws2.map (fun w => c * w)) = npAverage ms2 ws2 := by
    intro m2 k2 ms2 ws2 hws2
    unfold npAverage
    rw [zipWith_smul_map_mul, sum_map_mul_const, smul_smul]
    congr 1
    field_simp
  refine ⟨key _ _ ms ws hws, ?_⟩
  cases hb : p.b1_inh with
  | inf =>
      simp only [Profile.propagatorFor, hb]
      rw [show ({ p with
                  b1_inh := B1Inh.inf,
                  b1_weights := p.b1_weights.map (fun w => c * w) } :
          Profile n).liouvilliansFor kwargs b1_offset =
          p.liouvilliansFor kwargs b1_offset from rfl]
  | finite w =>
      simp only [Profile.propagatorFor, hb]
      rw [show ({ p with
                  b1_inh := B1Inh.finite w,
                  b1_weights := p.b1_weights.map (fun w => c * w) } :
          Profile n).liouvilliansFor kwargs b1_offset =
          p.liouvilliansFor kwargs b1_offset from rfl]
      rw [key _ _ _ _ hpw]

theorem claim6_witness :
    npAverage [(0 : Matrix (Fin 1) (Fin 1) CQ)] ([1].map (fun w => 2 * w)) =
      npAverage [(0 : Matrix (Fin 1) (Fin 1) CQ)] [1] :=
  (claim6 [(0 : Matrix (Fin 1) (Fin 1) CQ)] [1] (fun M => (fun _ => 0, M))
      (fun M => M) (fun z => z) (fun M => M) c5Profile (fun _ => none) 0 2
      (by norm_num) (by simp) (by simp [c5Profile])).1

/-- An error raised while processing any condition aborts the whole
profile loop with an error. -/
lemma loopE_error {V : Type} (step : ℚ → Except String V) (os : List ℚ)
    (o : ℚ) (msg : String) (hmem : o ∈ os) (herr : step o = .error msg) :
    ∃ m, loopE step os = .error m := by
  induction os with
  | nil => cases hmem
  | cons hd tl ih =>
      rcases List.mem_cons.mp hmem with heq | htl
      · subst heq
        refine ⟨msg, ?_⟩
        simp only [loopE]
        rw [herr]
        rfl
      · cases hstep : step hd with
        | error e =>
            refine ⟨e, ?_⟩
            simp only [loopE]
            rw [hstep]
            rfl
        | ok v =>
            obtain ⟨mm, hmm⟩ := ih htl
            refine ⟨mm, ?_⟩
            simp only [loopE]
            rw [hstep, hmm]
            rfl

/-- An error from the matrix exponential of any list element aborts
`mapM`. -/
lemma mapM_error {α V : Type} (f : α → Except String V) (Ls : List α) (x : α)
    (msg : String) (hmem : x ∈ Ls) (herr : f x = .error msg) :
    ∃ m, Ls.mapM f = Except.error m := by
  induction Ls with
  | nil => cases hmem
  | cons hd tl ih =>
      rcases List.mem_cons.mp hmem with heq | htl
      · subst heq
        refine ⟨msg, ?_⟩
        rw [List.mapM_cons, herr]
        rfl
      · cases hstep : f hd with
        | error e =>
            refine ⟨e, ?_⟩
            rw [List.mapM_cons, hstep]
            rfl
        | ok v =>
            obtain ⟨mm, hmm⟩ := ih htl
            refine ⟨mm, ?_⟩
            rw [List.mapM_cons, hstep, hmm]
            rfl

/-- C7: a failing linear-algebra step is propagated upward as an explicit
error.  First conjunct: if the step of any supplied condition fails,
`calculate_unscaled_profile` returns an error, not an intensity list.  The
remaining conjuncts identify the failure sources inside one step: `eig` on
the nominal Liouvillian or `inv` on the eigenvector matrix in the ideal
regime, and `expm` on any per-field-scale Liouvillian in the finite
regime. -/
theorem claim7 {n : ℕ}
    (eigE : MatC n n → Except String ((Fin n → CQ) × MatC n n))
    (invE : MatC n n → Except String (MatC n n)) (cexp : CQ → CQ)
    (expmE : MatC n n → Except String (MatC n n))
    (p : Profile n) (kwargs : Params) (b1_offset : ℚ) (msg : String) :
    (b1_offset ∈ p.b1_offsets →
      p.stepE eigE invE cexp expmE kwargs
        (p.base.compute_equilibrium_after_d1 p.time_d1 kwargs) b1_offset =
        .error msg →
      ∃ m, p.calculate_unscaled_profileE eigE invE cexp expmE kwargs =
        .error m) ∧
    (∀ mag0 : Fin n → CQ, p.b1_inh = .inf →
      eigE ((p.liouvilliansFor kwargs b1_offset).headD 0) = .error msg →
      p.stepE eigE invE cexp expmE kwargs mag0 b1_offset = .error msg) ∧
    (∀ (mag0 : Fin n → CQ) (sv : (Fin n → CQ) × MatC n n), p.b1_inh = .inf →
      eigE ((p.liouvilliansFor kwargs b1_offset).headD 0) = .ok sv →
      invE sv.2 = .error msg →
      p.stepE eigE invE cexp expmE kwargs mag0 b1_offset = .error msg) ∧
    (∀ (mag0 : Fin n → CQ) (L : MatC n n), p.b1_inh ≠ .inf →
      L ∈ p.liouvilliansFor kwargs b1_offset →
      expmE (p.time_t1 • L) = .error msg →
      ∃ m2, p.stepE eigE invE cexp expmE kwargs mag0 b1_offset = .error m2) := by
  refine ⟨fun hmem herr => ?_, fun mag0 hinf herr => ?_,
    fun mag0 sv hinf hok herr => ?_, fun mag0 L hfin hmem herr => ?_⟩
  · exact loopE_error _ _ _ _ hmem herr
  · simp only [Profile.stepE, hinf]
    rw [herr]
    rfl
  · simp only [Profile.stepE, hinf]
    rw [hok]
    show (invE sv.2).bind _ = _
    rw [herr]
    rfl
  · cases hb : p.b1_inh with
    | inf => exact absurd hb hfin
    | finite w =>
        obtain ⟨mm, hmm⟩ := mapM_error (fun liouvillian => expmE (p.time_t1 • liouvillian))
          (p.liouvilliansFor kwargs b1_offset) L msg hmem herr
        refine ⟨mm, ?_⟩
        simp only [Profile.stepE, hb]
        rw [hmm]
        rfl

def c7Profile : Profile 1 :=
  { model := "2st", time_d1 := 1, equilibrium := false, base := oneBasis,
    carrier := 0, ppm_i := 1, time_t1 := 1, b1_offsets := [0],
    omega1s := [1], b1_inh := .inf, b1_weights := [1],
    on_resonance_filter := 0, liouvillians_b1 := [0],
    map_names := fun _ => none,
    default_params := fun _ => { value := 0, expr := none },
    val := [1], err := [1], reference := [false] }

theorem claim7_witness :
    ∃ m, c7Profile.calculate_unscaled_profileE
      (fun _ => .error "eig failed to converge") (fun M => .ok M) (fun z => z)
      (fun M => .ok M) (fun _ => none) = .error m :=
  (claim7 (fun _ => .error "eig failed to converge") (fun M => .ok M) (fun z => z)
      (fun M => .ok M) c7Profile (fun _ => none) 0 "eig failed to converge").1
    (by simp [c7Profile])
    ((claim7 (fun _ => .error "eig failed to converge") (fun M => .ok M) (fun z => z)
        (fun M => .ok M) c7Profile (fun _ => none) 0 "eig failed to converge").2.1
      _ rfl rfl)

/-- C10: with the metadata `error` entry equal to `'auto'` and at least one
profile constructed, every entry of every returned profile's uncertainty
array is the one common value `np.mean` of the per-profile estimated noises
of all included profiles; with `error` absent or any other value the
returned profiles are exactly the constructed ones, whose uncertainty
arrays are the `intensities_err` columns loaded from the input files; in
both cases the returned point count is the sum of the lengths of the
returned profiles' intensity arrays. -/
theorem claim10 (estimate_noise : CPMGProfile → ℚ)
    (loadtxt : String → List (ℚ × ℚ × ℚ))
    (profile_filenames : List (String × String))
    (errorEntry : Option String) (res_incl res_excl : Option (List String)) :
    (errorEntry = some "auto" →
      (read_profiles estimate_noise loadtxt profile_filenames errorEntry res_incl res_excl).1 ≠ [] →
      ∀ pr ∈ (read_profiles estimate_noise loadtxt profile_filenames errorEntry res_incl res_excl).1, ∀ e ∈ pr.err,
        e = npMean (((profile_filenames.filter
          (fun nf => keepName res_incl res_excl nf.1)).map
        (fun nf => mkCPMGProfile nf.1 (loadtxt nf.2))).map estimate_noise)) ∧
    (errorEntry ≠ some "auto" →
      (read_profiles estimate_noise loadtxt profile_filenames errorEntry res_incl res_excl).1 = (profile_filenames.filter
          (fun nf => keepName res_incl res_excl nf.1)).map
        (fun nf => mkCPMGProfile nf.1 (loadtxt nf.2))) ∧
    (∀ (name : String) (ms : List (ℚ × ℚ × ℚ)),
      (mkCPMGProfile name ms).err = ms.map (fun r => r.2.2) ∧
      (mkCPMGProfile name ms).val = ms.map (fun r => r.2.1)) ∧
    (read_profiles estimate_noise loadtxt profile_filenames errorEntry res_incl res_excl).2 = ((read_profiles estimate_noise loadtxt profile_filenames errorEntry res_incl res_excl).1.map (fun pr => pr.val.length)).sum := by
  refine ⟨fun hauto hne pr hpr e he => ?_, fun hnauto => ?_,
    fun name ms => ⟨rfl, rfl⟩, rfl⟩
  · subst hauto
    simp only [read_profiles, Option.getD_some, if_pos rfl] at hpr
    rcases List.mem_map.mp hpr with ⟨pr0, hpr0, rfl⟩
    simp only at he
    exact List.eq_of_mem_replicate he
  · cases errorEntry with
    | none => simp [read_profiles]
    | some s =>
        have hs : ¬ s = "auto" := fun h => hnauto (by rw [h])
        simp [read_profiles, hs]

theorem claim10_witness :
    (∀ pr ∈ (read_profiles (fun _ => 2) (fun _ => [(1, 5, 3)]) [("a", "f")]
        (some "auto") none none).1, ∀ e ∈ pr.err,
      e = npMean (((([(("a" : String), ("f" : String))].filter
          (fun nf => keepName none none nf.1)).map
            (fun nf => mkCPMGProfile nf.1 ((fun _ => [(1, 5, 3)]) nf.2))).map
        (fun _ => (2 : ℚ))))) ∧
    (read_profiles (fun _ => 2) (fun _ => [(1, 5, 3)]) [("a", "f")]
        (some "file") none none).1 =
      ([(("a" : String), ("f" : String))].filter
        (fun nf => keepName none none nf.1)).map
          (fun nf => mkCPMGProfile nf.1 ((fun _ => [(1, 5, 3)]) nf.2)) :=
  ⟨(claim10 (fun _ => 2) (fun _ => [(1, 5, 3)]) [("a", "f")] (some "auto")
      none none).1 rfl
      (by simp [read_profiles, keepName, pyTruthy, mkCPMGProfile]),
   (claim10 (fun _ => 2) (fun _ => [(1, 5, 3)]) [("a", "f")] (some "file")
      none none).2.1 (by simp)⟩

end ChemEx
